import Mathlib

/-!
Verification of the Light-Pollution-on-Moon raster-preparation scripts.

The development shallowly embeds the two Python source files:
* `elevation_shift.py` — the antimeridian shift (`shift_dem`): the
  wraparound source-window computation, the per-tile nodata/clip
  normalization, and the output header/metadata construction;
* `maps_align.py` — `LunarRasterProcessor`: tile-grid planning
  (`create_tile_grid`), result collection and mosaic input filtering
  (`process_dataset`), and grid-equality checking (`verify_alignment`).

Machine floats are modelled as exact rationals (`ℚ`); `NaN` is modelled
as `Option.none`; Python exceptions are modelled with `Except String`.
-/

namespace MoonPol

/-! ## WraparoundShifter (`elevation_shift.py`, lines 43–55)

`shift_dem` computes, for a destination tile at pixel offset `x` of width
`w`, the window of the unshifted source raster (width `W`) to read, for a
circular horizontal shift of `s` pixels:

    src_x = (x + split_x) % xsize
    if src_x + xsz > xsize:
        part1 = (src_x, xsize - src_x); part2 = (0, xsz - part1_width)
    else:
        single = (src_x, xsz)

Python `%` with a positive modulus agrees with `Int.emod`. -/

/-- The wrapped source column: `src_x = (x + s) % W` (`elevation_shift.py:43`,
with `s = split_x`). -/
def srcX (W x s : Int) : Int := (x + s) % W

/-- The one or two `(offset, width)` source ranges read for a destination
tile `(x, w)` under shift `s` on a raster of width `W`
(`elevation_shift.py:46-55`). -/
def sourceWindow (W x w s : Int) : List (Int × Int) :=
  let sx := srcX W x s
  if sx + w > W then
    [(sx, W - sx), (0, w - (W - sx))]
  else
    [(sx, w)]

/-- C1: for every raster width `W > 0`, destination offset `0 ≤ x < W`,
tile width `0 < w ≤ W` and integer shift `s`, the window computation uses
`src_x = (x + s) % W`, returns the single range `(src_x, w)` when
`src_x + w ≤ W`, and otherwise exactly the two ranges `(src_x, W - src_x)`
then `(0, w - (W - src_x))`; in the two-range case the two widths sum to
`w` and the first range ends exactly at column `W`. -/
theorem sourceWindow_cases (W x w s : Int)
    (hW : 0 < W) (hx0 : 0 ≤ x) (hxW : x < W) (hw0 : 0 < w) (hwW : w ≤ W) :
    (srcX W x s + w ≤ W →
      sourceWindow W x w s = [(srcX W x s, w)]) ∧
    (W < srcX W x s + w →
      sourceWindow W x w s =
        [(srcX W x s, W - srcX W x s), (0, w - (W - srcX W x s))] ∧
      (W - srcX W x s) + (w - (W - srcX W x s)) = w ∧
      srcX W x s + (W - srcX W x s) = W) := by
  constructor
  · intro h
    simp only [sourceWindow]
    rw [if_neg (by omega)]
  · intro h
    refine ⟨?_, by ring, by ring⟩
    simp only [sourceWindow]
    rw [if_pos (by omega)]

/-- C1 witness: the theorem applied at `W = 8`, `x = 6`, `w = 2`, `s = 4`
(here `src_x = (6+4) % 8 = 2`). -/
theorem sourceWindow_cases_witness :
    (srcX 8 6 4 + 2 ≤ 8 → sourceWindow 8 6 2 4 = [(srcX 8 6 4, 2)]) ∧
    (8 < srcX 8 6 4 + 2 →
      sourceWindow 8 6 2 4 =
        [(srcX 8 6 4, 8 - srcX 8 6 4), (0, 2 - (8 - srcX 8 6 4))] ∧
      (8 - srcX 8 6 4) + (2 - (8 - srcX 8 6 4)) = 2 ∧
      srcX 8 6 4 + (8 - srcX 8 6 4) = 8) :=
  sourceWindow_cases 8 6 2 4 (by decide) (by decide) (by decide)
    (by decide) (by decide)

/-! ## Destination-tile assembly and the round-trip law
(`elevation_shift.py`, lines 51–55) -/

/-- Read `len` pixels of a pixel row starting at column `off`: one row of
`band.ReadAsArray(off, y, len, ysz)`. All reads issued by `shift_dem` are
in bounds; an out-of-range column defaults to `0`. -/
def readRange (row : List ℚ) (off len : Nat) : List ℚ :=
  (List.range len).map (fun i => row.getD (off + i) 0)

/-- The destination tile `shift_dem` assembles for window `(x, w)`: the
reads of the one or two source ranges, concatenated in source order
(`np.concatenate((part1, part2), axis=1)`, `elevation_shift.py:51-55`). -/
def readWindow (row : List ℚ) (W x w s : Int) : List ℚ :=
  ((sourceWindow W x w s).map (fun r => readRange row r.1.toNat r.2.toNat)).flatten

/-- The circular horizontal shift of a whole pixel row by `s` pixels:
destination column `i` holds source column `(i + s) mod W`. -/
def shiftRow (s : Int) (row : List ℚ) : List ℚ :=
  (List.range row.length).map
    (fun (i : Nat) => row.getD (((i : Int) + s) % (row.length : Int)).toNat 0)

theorem shiftRow_length (s : Int) (row : List ℚ) :
    (shiftRow s row).length = row.length := by
  simp [shiftRow]

theorem shiftRow_getD (s : Int) (row : List ℚ) (k : Nat) (hk : k < row.length) :
    (shiftRow s row).getD k 0 =
      row.getD (((k : Int) + s) % (row.length : Int)).toNat 0 := by
  have h1 : k < (shiftRow s row).length := by rw [shiftRow_length]; exact hk
  rw [List.getD_eq_getElem?_getD, List.getElem?_eq_getElem h1]
  simp [shiftRow]

theorem getD_of_lt (l : List ℚ) (i : Nat) (h : i < l.length) :
    l.getD i 0 = l[i] := by
  rw [List.getD_eq_getElem?_getD, List.getElem?_eq_getElem h]
  rfl

theorem shiftRow_unshift (s : Int) (row : List ℚ) :
    shiftRow (-s) (shiftRow s row) = row := by
  apply List.ext_getElem
  · rw [shiftRow_length, shiftRow_length]
  · intro i h1 h2
    have hn : 0 < row.length := by omega
    have hN : (0 : Int) < (row.length : Int) := by exact_mod_cast hn
    have hNne : (row.length : Int) ≠ 0 := by omega
    have h2' : i < (shiftRow s row).length := by rw [shiftRow_length]; exact h2
    rw [← getD_of_lt _ i h1, shiftRow_getD (-s) (shiftRow s row) i h2',
      shiftRow_length]
    have hj0 : 0 ≤ ((i : Int) + -s) % (row.length : Int) :=
      Int.emod_nonneg _ hNne
    have hjN : ((i : Int) + -s) % (row.length : Int) < (row.length : Int) :=
      Int.emod_lt_of_pos _ hN
    have hjlt : (((i : Int) + -s) % (row.length : Int)).toNat < row.length := by
      omega
    rw [shiftRow_getD s row _ hjlt]
    have hcast : (((((i : Int) + -s) % (row.length : Int)).toNat : Int)) =
        ((i : Int) + -s) % (row.length : Int) := Int.toNat_of_nonneg hj0
    rw [hcast, Int.emod_add_emod]
    have hsum : (i : Int) + -s + s = (i : Int) := by ring
    rw [hsum]
    have hi : (i : Int) % (row.length : Int) = (i : Int) :=
      Int.emod_eq_of_lt (by omega) (by exact_mod_cast h2)
    rw [hi]
    have htn : ((i : Int)).toNat = i := by omega
    rw [htn]
    exact getD_of_lt row i h2

theorem readWindow_eq_shifted (W x w s : Int) (row : List ℚ)
    (hrow : (row.length : Int) = W) (hx0 : 0 ≤ x) (hw0 : 0 < w)
    (hxw : x + w ≤ W) :
    readWindow row W x w s = readRange (shiftRow s row) x.toNat w.toNat := by
  have hW : 0 < W := by omega
  have hWne : W ≠ 0 := by omega
  have hsx0 : 0 ≤ srcX W x s := Int.emod_nonneg _ hWne
  have hsxW : srcX W x s < W := Int.emod_lt_of_pos _ hW
  have hmod : ∀ i : Int, (x + i + s) % W = (srcX W x s + i) % W := by
    intro i
    have h1 : x + i + s = x + s + i := by ring
    rw [h1, srcX, Int.emod_add_emod]
  -- the destination window of the fully shifted row, element by element
  have hRHS : readRange (shiftRow s row) x.toNat w.toNat =
      (List.range w.toNat).map
        (fun (i : Nat) => row.getD ((x + (i : Int) + s) % W).toNat 0) := by
    apply List.map_congr_left
    intro i hi
    rw [List.mem_range] at hi
    have hiw : (i : Int) < w := by omega
    have hxi : x.toNat + i < row.length := by omega
    rw [shiftRow_getD s row (x.toNat + i) hxi]
    have harg : (((x.toNat + i : ℕ) : Int) + s) % ((row.length : ℕ) : Int)
        = (x + (i : Int) + s) % W := by
      rw [Nat.cast_add, Int.toNat_of_nonneg hx0, hrow]
    rw [harg]
  rw [hRHS]
  by_cases hcase : srcX W x s + w > W
  · -- the window wraps: two reads concatenated in source order
    have hp1 : (0 : Int) < W - srcX W x s := by omega
    have hp2 : (0 : Int) < w - (W - srcX W x s) := by omega
    have hw' : w.toNat = (W - srcX W x s).toNat + (w - (W - srcX W x s)).toNat := by
      omega
    simp only [readWindow, sourceWindow]
    rw [if_pos hcase]
    simp only [List.map_cons, List.map_nil, List.flatten_cons, List.flatten_nil]
    rw [List.append_nil, hw', List.range_add, List.map_append, List.map_map]
    congr 1
    · simp only [readRange]
      apply List.map_congr_left
      intro i hi
      rw [List.mem_range] at hi
      have hiW : srcX W x s + (i : Int) < W := by omega
      have hidx : ((x + (i : Int) + s) % W).toNat = (srcX W x s).toNat + i := by
        rw [hmod, Int.emod_eq_of_lt (by omega) hiW]
        omega
      rw [hidx]
    · simp only [readRange, Function.comp]
      apply List.map_congr_left
      intro j hj
      rw [List.mem_range] at hj
      have hjW : (j : Int) < W := by omega
      have hcast2 : (((W - srcX W x s).toNat + j : ℕ) : Int)
          = W - srcX W x s + (j : Int) := by omega
      have hidx2 : ((x + (((W - srcX W x s).toNat + j : ℕ) : Int) + s) % W).toNat
          = j := by
        rw [hcast2, hmod (W - srcX W x s + (j : Int))]
        have hW1 : srcX W x s + (W - srcX W x s + (j : Int)) = (j : Int) + 1 * W := by
          ring
        rw [hW1, Int.add_mul_emod_self, Int.emod_eq_of_lt (by omega) hjW]
        omega
      simp only [Function.comp_apply]
      rw [hidx2]
      have h0j : ((0 : Int).toNat + j) = j := by omega
      rw [h0j]
  · -- single in-bounds read
    push_neg at hcase
    simp only [readWindow, sourceWindow]
    rw [if_neg (by omega)]
    simp only [List.map_cons, List.map_nil, List.flatten_cons, List.flatten_nil, List.append_nil]
    simp only [readRange]
    apply List.map_congr_left
    intro i hi
    rw [List.mem_range] at hi
    have hiW : srcX W x s + (i : Int) < W := by omega
    have hidx : ((x + (i : Int) + s) % W).toNat = (srcX W x s).toNat + i := by
      rw [hmod, Int.emod_eq_of_lt (by omega) hiW]
      omega
    rw [hidx]

/-- C2: round-trip law — for any `(W, x, w, s)` with `0 < w ≤ W` and an
in-raster destination window (`0 ≤ x`, `x + w ≤ W`), reading the one or
two source ranges produced by the wraparound window computation and
concatenating them in source order yields exactly the destination window
`[x, x+w)` of the circularly shifted row, and re-applying the shift `-s`
to the assembled (shifted) destination reproduces the original unshifted
pixel sequence. -/
theorem readWindow_roundTrip (W x w s : Int) (row : List ℚ)
    (hrow : (row.length : Int) = W) (hx0 : 0 ≤ x) (hw0 : 0 < w) (hwW : w ≤ W)
    (hxw : x + w ≤ W) :
    readWindow row W x w s = readRange (shiftRow s row) x.toNat w.toNat ∧
    shiftRow (-s) (shiftRow s row) = row :=
  ⟨readWindow_eq_shifted W x w s row hrow hx0 hw0 hxw, shiftRow_unshift s row⟩

/-- C2 witness: the round-trip law at `W = 8`, `x = 6`, `w = 2`, `s = 5`
(a wrapping window) on the row `[0,…,7]`. -/
theorem readWindow_roundTrip_witness :
    readWindow [0, 1, 2, 3, 4, 5, 6, 7] 8 6 2 5 =
      readRange (shiftRow 5 [0, 1, 2, 3, 4, 5, 6, 7]) (6 : Int).toNat
        (2 : Int).toNat ∧
    shiftRow (-5) (shiftRow 5 [0, 1, 2, 3, 4, 5, 6, 7]) =
      [0, 1, 2, 3, 4, 5, 6, 7] :=
  readWindow_roundTrip 8 6 2 5 [0, 1, 2, 3, 4, 5, 6, 7] (by rfl) (by decide)
    (by decide) (by decide) (by decide)

/-! ## Per-tile value normalization (`elevation_shift.py`, lines 57–60)

    raw_tile = np.where(raw_tile == nodata, np.nan, raw_tile)
    if np.any(np.isfinite(raw_tile)):
        np.clip(raw_tile, a_min=np.nanmin(raw_tile), a_max=np.nanmax(raw_tile), out=raw_tile)

`NaN` is modelled as `none`; source samples are exact numbers, so a value
is finite exactly when it is not the `NaN` marker. -/

/-- `np.where(raw_tile == nodata, np.nan, raw_tile)` on one tile. -/
def maskNodata (nodata : ℚ) (tile : List ℚ) : List (Option ℚ) :=
  tile.map (fun v => if v = nodata then none else some v)

/-- The finite (non-`NaN`) values of a tile. -/
def finiteVals (t : List (Option ℚ)) : List ℚ := t.filterMap id

/-- `np.nanmin`: minimum over the finite values, `none` on an all-`NaN`
tile. -/
def nanmin (t : List (Option ℚ)) : Option ℚ := (finiteVals t).min?

/-- `np.nanmax`: maximum over the finite values. -/
def nanmax (t : List (Option ℚ)) : Option ℚ := (finiteVals t).max?

/-- `np.clip(v, a_min, a_max)` on one sample: `NaN` propagates, a number is
clamped to `[lo, hi]`. -/
def clipVal (lo hi : ℚ) (v : Option ℚ) : Option ℚ :=
  v.map (fun q => min (max q lo) hi)

/-- The normalization `shift_dem` applies to each raw tile
(`elevation_shift.py:58-60`): nodata pixels become `NaN`; then, when any
finite value is present, every sample is clipped in place to the tile's
own observed `[nanmin, nanmax]` range. -/
def normalizeTile (nodata : ℚ) (tile : List ℚ) : List (Option ℚ) :=
  let masked := maskNodata nodata tile
  if masked.any (fun v => v.isSome) then
    match nanmin masked, nanmax masked with
    | some lo, some hi => masked.map (clipVal lo hi)
    | _, _ => masked
  else masked

theorem clip_of_mem (l : List ℚ) (lo hi q : ℚ)
    (hlo : l.min? = some lo) (hhi : l.max? = some hi) (hq : q ∈ l) :
    min (max q lo) hi = q := by
  have h1 : lo ≤ q :=
    (List.le_min?_iff (fun a b c => le_min_iff) hlo).1 (le_refl lo) q hq
  have h2 : q ≤ hi :=
    (List.max?_le_iff (fun a b c => max_le_iff) hhi).1 (le_refl hi) q hq
  rw [max_eq_left h1, min_eq_left h2]

/-- C6: in shift mode, each pixel equal to the nodata sentinel is replaced
by the non-finite `NaN` marker before being written, and the
clip-to-own-observed-range step changes no value: the whole normalization
equals the pure nodata masking, i.e. it is the identity on every pixel
that is not the nodata sentinel. -/
theorem normalizeTile_eq_mask (nodata : ℚ) (tile : List ℚ) :
    normalizeTile nodata tile =
      tile.map (fun v => if v = nodata then none else some v) := by
  have hmask : maskNodata nodata tile =
      tile.map (fun v => if v = nodata then none else some v) := rfl
  simp only [normalizeTile]
  split
  · split
    · next lo hi hlo hhi =>
      rw [← hmask]
      conv_rhs => rw [← List.map_id (maskNodata nodata tile)]
      apply List.map_congr_left
      intro v hv
      cases v with
      | none => rfl
      | some q =>
        have hqmem : q ∈ finiteVals (maskNodata nodata tile) := by
          simp only [finiteVals, List.mem_filterMap]
          exact ⟨some q, hv, rfl⟩
        simp only [clipVal, Option.map_some', id]
        rw [clip_of_mem _ lo hi q hlo hhi hqmem]
    · next => exact hmask
  · exact hmask

/-! ## `shift_dem` output header and metadata
(`elevation_shift.py`, lines 9–34 and 66–67) -/

/-- The six GDAL geotransform coefficients `geotransform[0] … [5]`. -/
structure GeoTransform where
  c0 : ℚ
  c1 : ℚ
  c2 : ℚ
  c3 : ℚ
  c4 : ℚ
  c5 : ℚ
deriving DecidableEq

/-- A raster dataset header as `shift_dem` reads and writes it: pixel
dimensions, band count, band data type (an opaque GDAL code), nodata
sentinel, geotransform, projection, band scale/offset, and the key→value
metadata dictionary. -/
structure Dataset where
  xsize : Nat
  ysize : Nat
  bandCount : Nat
  dataType : Nat
  nodata : Option ℚ
  geotransform : GeoTransform
  projection : String
  scale : ℚ
  offset : ℚ
  metadata : String → Option String

/-- `SetMetadataItem(key, value)` on a GDAL metadata dictionary. -/
def setMetadataItem (md : String → Option String) (k v : String) :
    String → Option String :=
  fun q => if q = k then some v else md q

/-- The pixel shift `shift_dem` always applies: `split_x = xsize // 2`
(`elevation_shift.py:11`). It is computed from the input raster, never
passed by the caller (`shift_dem` takes only paths and a tile size). -/
def splitX (ds : Dataset) : Nat := ds.xsize / 2

/-- The output dataset header `shift_dem` creates
(`elevation_shift.py:17-34` and `66-67`): same size and data type, one
band, copied metadata and projection, geotransform with the X origin moved
left by `split_x` pixel widths, band scale `0.5`, band offset `1737400.0`,
copied nodata, and the two longitude metadata items set to the constants
`"0"` and `"360"`. -/
def shiftDemOutput (ds : Dataset) : Dataset where
  xsize := ds.xsize
  ysize := ds.ysize
  bandCount := 1
  dataType := ds.dataType
  nodata := ds.nodata
  geotransform :=
    { ds.geotransform with
      c0 := ds.geotransform.c0 - (splitX ds : ℚ) * ds.geotransform.c1 }
  projection := ds.projection
  scale := 1/2
  offset := 1737400
  metadata :=
    setMetadataItem (setMetadataItem ds.metadata "MinimumLongitude" "0")
      "MaximumLongitude" "360"

/-- C9: for every input raster the shift output preserves width, height,
band count (always `1`), data type and projection, and its geotransform
equals the input's in every component except the origin X coordinate,
which is decreased by exactly `⌊width/2⌋` pixel widths; the shift amount
is the fixed `⌊width/2⌋`, not a caller-chosen parameter. -/
theorem shiftDemOutput_grid (ds : Dataset) :
    (shiftDemOutput ds).xsize = ds.xsize ∧
    (shiftDemOutput ds).ysize = ds.ysize ∧
    (shiftDemOutput ds).bandCount = 1 ∧
    (shiftDemOutput ds).dataType = ds.dataType ∧
    (shiftDemOutput ds).projection = ds.projection ∧
    (shiftDemOutput ds).geotransform =
      { ds.geotransform with
        c0 := ds.geotransform.c0 - ((ds.xsize / 2 : Nat) : ℚ) * ds.geotransform.c1 } ∧
    splitX ds = ds.xsize / 2 :=
  ⟨rfl, rfl, rfl, rfl, rfl, rfl, rfl⟩

/-- C10: regardless of the input's own scale/offset and metadata, the shift
output's band scale is `0.5`, its band offset is `1737400.0`, and its
metadata items `MinimumLongitude` and `MaximumLongitude` are the constants
`"0"` and `"360"`. -/
theorem shiftDemOutput_constants (ds : Dataset) :
    (shiftDemOutput ds).scale = 1/2 ∧
    (shiftDemOutput ds).offset = 1737400 ∧
    (shiftDemOutput ds).metadata "MinimumLongitude" = some "0" ∧
    (shiftDemOutput ds).metadata "MaximumLongitude" = some "360" := by
  refine ⟨rfl, rfl, ?_, ?_⟩
  · simp [shiftDemOutput, setMetadataItem]
  · simp [shiftDemOutput, setMetadataItem]

/-! ## `LunarRasterProcessor.create_tile_grid` (`maps_align.py`, lines 50–88)

    num_tiles_x = math.ceil(full_size_x / tile_size)
    num_tiles_y = math.ceil(full_size_y / tile_size)
    for ty in range(num_tiles_y):
        for tx in range(num_tiles_x):
            xoff = tx * tile_size; yoff = ty * tile_size
            xsize = min(tile_size, full_size_x - xoff)
            ysize = min(tile_size, full_size_y - yoff)
            ...

`math.ceil(a / b)` is modelled as the exact ceiling of the rational
quotient; `tile_size = 0` makes the division raise `ZeroDivisionError`,
and there is no other validation in the function. -/

/-- The reference grid held by `LunarRasterProcessor`: geotransform and
projection (`self.ref_gt`, `self.ref_proj`). -/
structure RefGrid where
  gt : GeoTransform
  proj : String

/-- One tile descriptor dict as built by `create_tile_grid`
(`maps_align.py:74-86`). -/
structure Tile where
  tx : Int
  ty : Int
  xoff : Int
  yoff : Int
  xsize : Int
  ysize : Int
  bounds : List ℚ
  geotransform : GeoTransform
  projection_wkt : String

/-- `math.ceil(full / tile_size)`: the number of tiles along one axis. -/
def numTiles (full T : Int) : Int := Int.ceil ((full : ℚ) / (T : ℚ))

/-- The tile built for grid indices `(tx, ty)` (`maps_align.py:58-86`). -/
def mkTile (ref : RefGrid) (fullX fullY T : Int) (tx ty : Nat) : Tile :=
  let xoff : Int := (tx : Int) * T
  let yoff : Int := (ty : Int) * T
  let xsize : Int := min T (fullX - xoff)
  let ysize : Int := min T (fullY - yoff)
  let min_x : ℚ := ref.gt.c0 + (xoff : ℚ) * ref.gt.c1
  let max_y : ℚ := ref.gt.c3 + (yoff : ℚ) * ref.gt.c5
  { tx := tx
    ty := ty
    xoff := xoff
    yoff := yoff
    xsize := xsize
    ysize := ysize
    bounds := [min_x, max_y + (ysize : ℚ) * |ref.gt.c5|,
      min_x + (xsize : ℚ) * ref.gt.c1, max_y]
    geotransform := ⟨min_x, ref.gt.c1, 0, max_y, 0, ref.gt.c5⟩
    projection_wkt := ref.proj }

/-- The tile list produced by the two nested loops, `ty` outer and `tx`
inner (`maps_align.py:56-87`). -/
def tileList (ref : RefGrid) (fullX fullY T : Int) : List Tile :=
  (List.range (numTiles fullY T).toNat).flatMap (fun ty =>
    (List.range (numTiles fullX T).toNat).map (fun tx =>
      mkTile ref fullX fullY T tx ty))

/-- `create_tile_grid` as seen by its caller: `tile_size = 0` raises
`ZeroDivisionError` at the first `math.ceil` call; otherwise the nested
loops run with no validation of any kind (`maps_align.py:50-88`). -/
def create_tile_grid (ref : RefGrid) (fullX fullY T : Int) :
    Except String (List Tile) :=
  if T = 0 then .error "ZeroDivisionError: division by zero"
  else .ok (tileList ref fullX fullY T)

theorem numTiles_mul_ge (full T : Int) (hT : 0 < T) :
    full ≤ numTiles full T * T := by
  have hTQ : (0 : ℚ) < (T : ℚ) := by exact_mod_cast hT
  have h1 : ((full : ℚ) / (T : ℚ)) ≤ (numTiles full T : ℚ) := Int.le_ceil _
  have h2 : (full : ℚ) ≤ (numTiles full T : ℚ) * (T : ℚ) :=
    (div_le_iff hTQ).1 h1
  exact_mod_cast h2

theorem numTiles_mul_lt (full T : Int) (hT : 0 < T) :
    (numTiles full T - 1) * T < full := by
  have hTQ : (0 : ℚ) < (T : ℚ) := by exact_mod_cast hT
  have h1 : ((numTiles full T : ℚ) - 1) < (full : ℚ) / (T : ℚ) := by
    have h := Int.ceil_lt_add_one ((full : ℚ) / (T : ℚ))
    simp only [numTiles]
    linarith [h]
  have h2 : ((numTiles full T : ℚ) - 1) * (T : ℚ) < (full : ℚ) :=
    (lt_div_iff hTQ).1 h1
  exact_mod_cast h2

theorem mem_tileList (ref : RefGrid) (fullX fullY T : Int) (t : Tile) :
    t ∈ tileList ref fullX fullY T ↔
      ∃ ty < (numTiles fullY T).toNat, ∃ tx < (numTiles fullX T).toNat,
        t = mkTile ref fullX fullY T tx ty := by
  simp only [tileList, List.mem_flatMap, List.mem_map, List.mem_range]
  constructor
  · rintro ⟨ty, hty, tx, htx, rfl⟩
    exact ⟨ty, hty, tx, htx, rfl⟩
  · rintro ⟨ty, hty, tx, htx, rfl⟩
    exact ⟨ty, hty, tx, htx, rfl⟩

theorem tileIndex_unique (T p u v : Int) (hT : 0 < T)
    (hu1 : u * T ≤ p) (hu2 : p < u * T + T)
    (hv1 : v * T ≤ p) (hv2 : p < v * T + T) : u = v := by
  by_contra hne
  rcases lt_or_gt_of_ne hne with h | h
  · have h1 : u + 1 ≤ v := by omega
    have h2 : (u + 1) * T ≤ v * T :=
      mul_le_mul_of_nonneg_right h1 (le_of_lt hT)
    rw [add_mul, one_mul] at h2
    omega
  · have h1 : v + 1 ≤ u := by omega
    have h2 : (v + 1) * T ≤ u * T :=
      mul_le_mul_of_nonneg_right h1 (le_of_lt hT)
    rw [add_mul, one_mul] at h2
    omega

theorem tileIndex_lt_numTiles (full T p : Int) (hT : 0 < T)
    (hp0 : 0 ≤ p) (hpf : p < full) : p / T < numTiles full T := by
  have h1 : p / T * T ≤ p := Int.ediv_mul_le p (by omega)
  have h2 : p < numTiles full T * T :=
    lt_of_lt_of_le hpf (numTiles_mul_ge full T hT)
  have h3 : p / T * T < numTiles full T * T := by omega
  exact lt_of_mul_lt_mul_right h3 (le_of_lt hT)

/-- C3: for positive raster dimensions and tile size `T > 0`, the planner
returns (with no error) the tiles in row-major order (`ty` outer, `tx`
inner), each with `xsize = min(T, width - tx*T)` and
`ysize = min(T, height - ty*T)`, and the tile pixel rectangles partition
`[0,width) × [0,height)` exactly: every pixel is covered by exactly one
tile. -/
theorem create_tile_grid_partition (ref : RefGrid) (W H T : Int)
    (hW : 0 < W) (hH : 0 < H) (hT : 0 < T) :
    create_tile_grid ref W H T = .ok (tileList ref W H T) ∧
    (tileList ref W H T).map (fun t => (t.ty, t.tx)) =
      (List.range (numTiles H T).toNat).flatMap (fun (ty : Nat) =>
        (List.range (numTiles W T).toNat).map (fun (tx : Nat) =>
          ((ty : Int), (tx : Int)))) ∧
    (∀ t ∈ tileList ref W H T,
      t.xsize = min T (W - t.tx * T) ∧ t.ysize = min T (H - t.ty * T)) ∧
    (∀ px py : Int, 0 ≤ px → px < W → 0 ≤ py → py < H →
      ∃! t, t ∈ tileList ref W H T ∧
        t.xoff ≤ px ∧ px < t.xoff + t.xsize ∧
        t.yoff ≤ py ∧ py < t.yoff + t.ysize) := by
  refine ⟨by rw [create_tile_grid, if_neg (by omega)], ?_, ?_, ?_⟩
  · simp only [tileList, List.map_flatMap, List.map_map]
    rfl
  · intro t ht
    rcases (mem_tileList ref W H T t).1 ht with ⟨ty, hty, tx, htx, rfl⟩
    exact ⟨rfl, rfl⟩
  · intro px py hpx0 hpxW hpy0 hpyH
    have hTne : T ≠ 0 := by omega
    -- the unique covering tile indices
    have hqx := Int.ediv_add_emod px T
    have hrx0 := Int.emod_nonneg px hTne
    have hrxT := Int.emod_lt_of_pos px hT
    have hqy := Int.ediv_add_emod py T
    have hry0 := Int.emod_nonneg py hTne
    have hryT := Int.emod_lt_of_pos py hT
    have ha0 : 0 ≤ px / T := Int.ediv_nonneg hpx0 (le_of_lt hT)
    have hb0 : 0 ≤ py / T := Int.ediv_nonneg hpy0 (le_of_lt hT)
    have haW : px / T < numTiles W T := tileIndex_lt_numTiles W T px hT hpx0 hpxW
    have hbH : py / T < numTiles H T := tileIndex_lt_numTiles H T py hT hpy0 hpyH
    have hcastx : (((px / T).toNat : Int)) = px / T := Int.toNat_of_nonneg ha0
    have hcasty : (((py / T).toNat : Int)) = py / T := Int.toNat_of_nonneg hb0
    have h1x : px / T * T ≤ px := by rw [mul_comm]; omega
    have h2x : px < px / T * T + T := by rw [mul_comm]; omega
    have h1y : py / T * T ≤ py := by rw [mul_comm]; omega
    have h2y : py < py / T * T + T := by rw [mul_comm]; omega
    refine ⟨mkTile ref W H T (px / T).toNat (py / T).toNat, ⟨?_, ?_, ?_, ?_, ?_⟩, ?_⟩
    · refine (mem_tileList ref W H T _).2
        ⟨(py / T).toNat, by omega, (px / T).toNat, by omega, rfl⟩
    · show ((px / T).toNat : Int) * T ≤ px
      rw [hcastx]; omega
    · show px < ((px / T).toNat : Int) * T + min T (W - ((px / T).toNat : Int) * T)
      rw [hcastx]; omega
    · show ((py / T).toNat : Int) * T ≤ py
      rw [hcasty]; omega
    · show py < ((py / T).toNat : Int) * T + min T (H - ((py / T).toNat : Int) * T)
      rw [hcasty]; omega
    · rintro t' ⟨ht'm, hx1, hx2, hy1, hy2⟩
      rcases (mem_tileList ref W H T t').1 ht'm with ⟨ty, hty, tx, htx, rfl⟩
      have hx1' : (tx : Int) * T ≤ px := hx1
      have hy1' : (ty : Int) * T ≤ py := hy1
      have hx2' : px < (tx : Int) * T + T := by
        have hmin : min T (W - (tx : Int) * T) ≤ T := min_le_left _ _
        have hx2'' : px < (tx : Int) * T + min T (W - (tx : Int) * T) := hx2
        omega
      have hy2' : py < (ty : Int) * T + T := by
        have hmin : min T (H - (ty : Int) * T) ≤ T := min_le_left _ _
        have hy2'' : py < (ty : Int) * T + min T (H - (ty : Int) * T) := hy2
        omega
      have hex : (tx : Int) = px / T :=
        tileIndex_unique T px (tx : Int) (px / T) hT hx1' hx2'
          (by omega) (by omega)
      have hey : (ty : Int) = py / T :=
        tileIndex_unique T py (ty : Int) (py / T) hT hy1' hy2'
          (by omega) (by omega)
      have hex' : tx = (px / T).toNat := by omega
      have hey' : ty = (py / T).toNat := by omega
      rw [hex', hey']

/-- C3 witness: the partition theorem applied on a `5 × 3` raster with
tile size `2`. -/
theorem create_tile_grid_partition_witness :
    create_tile_grid ⟨⟨0, 1, 0, 0, 0, -1⟩, "MOON"⟩ 5 3 2 =
      .ok (tileList ⟨⟨0, 1, 0, 0, 0, -1⟩, "MOON"⟩ 5 3 2) ∧
    (tileList ⟨⟨0, 1, 0, 0, 0, -1⟩, "MOON"⟩ 5 3 2).map (fun t => (t.ty, t.tx)) =
      (List.range (numTiles 3 2).toNat).flatMap (fun (ty : Nat) =>
        (List.range (numTiles 5 2).toNat).map (fun (tx : Nat) =>
          ((ty : Int), (tx : Int)))) ∧
    (∀ t ∈ tileList ⟨⟨0, 1, 0, 0, 0, -1⟩, "MOON"⟩ 5 3 2,
      t.xsize = min 2 (5 - t.tx * 2) ∧ t.ysize = min 2 (3 - t.ty * 2)) ∧
    (∀ px py : Int, 0 ≤ px → px < 5 → 0 ≤ py → py < 3 →
      ∃! t, t ∈ tileList ⟨⟨0, 1, 0, 0, 0, -1⟩, "MOON"⟩ 5 3 2 ∧
        t.xoff ≤ px ∧ px < t.xoff + t.xsize ∧
        t.yoff ≤ py ∧ py < t.yoff + t.ysize) :=
  create_tile_grid_partition ⟨⟨0, 1, 0, 0, 0, -1⟩, "MOON"⟩ 5 3 2
    (by decide) (by decide) (by decide)

theorem flatMap_const_nil (l : List Nat) :
    l.flatMap (fun _ => ([] : List Tile)) = [] := by
  induction l with
  | nil => rfl
  | cons a l ih =>
    simp only [List.flatMap_cons, List.nil_append]
    exact ih

theorem tileList_nil_of_numTilesX (ref : RefGrid) (fullX fullY T : Int)
    (h : (numTiles fullX T).toNat = 0) :
    tileList ref fullX fullY T = [] := by
  simp only [tileList, h, List.range_zero, List.map_nil]
  exact flatMap_const_nil _

/-- C7 counterexample: on a `10 × 10` raster with tile size `-1` (so
`T ≤ 0`), `create_tile_grid` raises no invalid-configuration error at
all — it silently returns an empty tile list. -/
theorem create_tile_grid_neg_tile_size :
    create_tile_grid ⟨⟨0, 1, 0, 0, 0, -1⟩, "MOON"⟩ 10 10 (-1) = .ok [] := by
  rw [create_tile_grid, if_neg (by omega), tileList_nil_of_numTilesX]
  have hq : ((10 : Int) : ℚ) / ((-1 : Int) : ℚ) ≤ 0 := by norm_num
  have h : numTiles 10 (-1) ≤ 0 := by
    simp only [numTiles]
    exact Int.ceil_le.2 (by exact_mod_cast hq)
  omega

/-- C7 (amended): `create_tile_grid` performs no configuration validation
and never raises an `InvalidConfiguration`-style error: tile size `T = 0`
surfaces as the `ZeroDivisionError` from `math.ceil(full/0)`, while a
negative `T` (with positive width) or a non-positive dimension (with
positive `T`) silently produces an empty tile list with no error raised. -/
theorem create_tile_grid_no_validation (ref : RefGrid) (W H T : Int) :
    (T = 0 → create_tile_grid ref W H T =
      .error "ZeroDivisionError: division by zero") ∧
    (T < 0 → 0 < W → create_tile_grid ref W H T = .ok []) ∧
    (0 < T → W ≤ 0 → create_tile_grid ref W H T = .ok []) ∧
    (0 < T → H ≤ 0 → create_tile_grid ref W H T = .ok []) := by
  refine ⟨fun h => by rw [create_tile_grid, if_pos h], ?_, ?_, ?_⟩
  · intro hT hW
    rw [create_tile_grid, if_neg (by omega), tileList_nil_of_numTilesX]
    have hq : ((W : ℚ) / (T : ℚ)) ≤ 0 := by
      apply div_nonpos_iff.2
      left
      constructor
      · exact_mod_cast le_of_lt hW
      · exact_mod_cast le_of_lt hT
    have : numTiles W T ≤ 0 := by
      simp only [numTiles]
      exact Int.ceil_le.2 (by exact_mod_cast hq)
    omega
  · intro hT hW
    rw [create_tile_grid, if_neg (by omega), tileList_nil_of_numTilesX]
    have hq : ((W : ℚ) / (T : ℚ)) ≤ 0 := by
      apply div_nonpos_iff.2
      right
      constructor
      · exact_mod_cast hW
      · exact_mod_cast le_of_lt hT
    have : numTiles W T ≤ 0 := by
      simp only [numTiles]
      exact Int.ceil_le.2 (by exact_mod_cast hq)
    omega
  · intro hT hH
    rw [create_tile_grid, if_neg (by omega)]
    have hq : ((H : ℚ) / (T : ℚ)) ≤ 0 := by
      apply div_nonpos_iff.2
      right
      constructor
      · exact_mod_cast hH
      · exact_mod_cast le_of_lt hT
    have hnty : (numTiles H T).toNat = 0 := by
      have : numTiles H T ≤ 0 := by
        simp only [numTiles]
        exact Int.ceil_le.2 (by exact_mod_cast hq)
      omega
    simp only [tileList, hnty, List.range_zero, List.flatMap_nil]

/-- C7 witness for the amended claim: tile size `0` on a `10 × 10`
raster raises the division error. -/
theorem create_tile_grid_no_validation_witness :
    create_tile_grid ⟨⟨0, 1, 0, 0, 0, -1⟩, "MOON"⟩ 10 10 0 =
      .error "ZeroDivisionError: division by zero" :=
  (create_tile_grid_no_validation ⟨⟨0, 1, 0, 0, 0, -1⟩, "MOON"⟩ 10 10 0).1 rfl

/-! ## `LunarRasterProcessor.verify_alignment` (`maps_align.py`, lines 163–183)

    base = params[0]
    for i, p in enumerate(params[1:]):
        if p['size'] != base['size']: raise ValueError("Size mismatch: ...")
        if not np.allclose(p['gt'], base['gt'], atol=1e-6): raise ValueError("Geotransform mismatch: ...")
        if p['proj'] != base['proj']: raise ValueError("Projection mismatch: ...")

`np.allclose(a, b, atol=1e-6)` keeps numpy's default `rtol = 1e-5`, so the
componentwise test is `|a_i - b_i| ≤ 1e-6 + 1e-5 * |b_i|`. -/

/-- The parameters `verify_alignment` reads from each raster:
`(RasterXSize, RasterYSize)`, `GetGeoTransform()`, `GetProjection()`. -/
structure RasterParams where
  size : Int × Int
  gt : List ℚ
  proj : String
deriving DecidableEq

/-- Numpy's default relative tolerance `rtol = 1e-5`, kept by the
`np.allclose` call in `verify_alignment`. -/
def npRtol : ℚ := 1/100000

/-- The absolute tolerance `atol = 1e-6` passed explicitly in
`verify_alignment`. -/
def npAtol : ℚ := 1/1000000

/-- `np.allclose(a, b, rtol, atol)`:
`|a_i - b_i| ≤ atol + rtol * |b_i|` for every component pair. -/
def allclose (a b : List ℚ) (rtol atol : ℚ) : Bool :=
  (a.length == b.length) &&
    (a.zip b).all (fun p => decide (|p.1 - p.2| ≤ atol + rtol * |p.2|))

/-- One comparison round of `verify_alignment`'s loop body
(`maps_align.py:176-181`), checking raster `p` against the first raster
`b`; the tolerances are `atol = 1e-6` and numpy's default `rtol = 1e-5`. -/
def checkPair (b p : String × RasterParams) : Except String Unit :=
  if p.2.size ≠ b.2.size then
    .error ("Size mismatch: " ++ b.1 ++ " vs " ++ p.1)
  else if allclose p.2.gt b.2.gt npRtol npAtol = false then
    .error ("Geotransform mismatch: " ++ b.1 ++ " vs " ++ p.1)
  else if p.2.proj ≠ b.2.proj then
    .error ("Projection mismatch: " ++ b.1 ++ " vs " ++ p.1)
  else .ok ()

/-- The loop of `verify_alignment` over `params[1:]`, stopping at the
first mismatch. -/
def verifyFrom (b : String × RasterParams) :
    List (String × RasterParams) → Except String Unit
  | [] => .ok ()
  | p :: ps =>
    match checkPair b p with
    | .ok _ => verifyFrom b ps
    | .error e => .error e

/-- `verify_alignment` over the opened rasters, each given as its path
paired with the parameters read from it (`maps_align.py:163-183`); an
empty list hits `params[0]` and raises `IndexError`. -/
def verify_alignment : List (String × RasterParams) → Except String Unit
  | [] => .error "IndexError: list index out of range"
  | b :: rest => verifyFrom b rest

theorem checkPair_ok_iff (b p : String × RasterParams) :
    checkPair b p = .ok () ↔
      p.2.size = b.2.size ∧
      allclose p.2.gt b.2.gt npRtol npAtol = true ∧
      p.2.proj = b.2.proj := by
  unfold checkPair
  by_cases h1 : p.2.size = b.2.size
  · rw [if_neg (by simp [h1])]
    by_cases h2 : allclose p.2.gt b.2.gt npRtol npAtol = true
    · rw [if_neg (by simp [h2])]
      by_cases h3 : p.2.proj = b.2.proj
      · rw [if_neg (by simp [h3])]
        simp [h1, h2, h3]
      · rw [if_pos h3]
        simp [h3]
    · rw [if_pos (by simp at h2; exact h2)]
      simp [h2]
  · rw [if_pos h1]
    simp [h1]

theorem checkPair_error_char (b p : String × RasterParams) (e : String)
    (h : checkPair b p = .error e) :
    (p.2.size ≠ b.2.size ∧ e = "Size mismatch: " ++ b.1 ++ " vs " ++ p.1) ∨
    (allclose p.2.gt b.2.gt npRtol npAtol = false ∧
      e = "Geotransform mismatch: " ++ b.1 ++ " vs " ++ p.1) ∨
    (p.2.proj ≠ b.2.proj ∧
      e = "Projection mismatch: " ++ b.1 ++ " vs " ++ p.1) := by
  unfold checkPair at h
  by_cases h1 : p.2.size = b.2.size
  · rw [if_neg (by simp [h1])] at h
    by_cases h2 : allclose p.2.gt b.2.gt npRtol npAtol = true
    · rw [if_neg (by simp [h2])] at h
      by_cases h3 : p.2.proj = b.2.proj
      · rw [if_neg (by simp [h3])] at h
        exact absurd h (by simp)
      · rw [if_pos h3] at h
        exact Or.inr (Or.inr ⟨h3, by injection h with h'; exact h'.symm⟩)
    · rw [if_pos (by simp at h2; exact h2)] at h
      refine Or.inr (Or.inl ⟨by simp at h2; exact h2, ?_⟩)
      injection h with h'
      exact h'.symm
  · rw [if_pos h1] at h
    exact Or.inl ⟨h1, by injection h with h'; exact h'.symm⟩

theorem verifyFrom_ok_iff (b : String × RasterParams)
    (ps : List (String × RasterParams)) :
    verifyFrom b ps = .ok () ↔ ∀ p ∈ ps, checkPair b p = .ok () := by
  induction ps with
  | nil => simp [verifyFrom]
  | cons p ps ih =>
    simp only [verifyFrom]
    cases hc : checkPair b p with
    | ok u =>
      cases u
      simp only [List.mem_cons]
      constructor
      · intro h q hq
        rcases hq with rfl | hq
        · exact hc
        · exact (ih.1 h) q hq
      · intro h
        exact ih.2 (fun q hq => h q (Or.inr hq))
    | error e =>
      simp only [List.mem_cons]
      constructor
      · intro h
        exact absurd h (by simp)
      · intro h
        have := h p (Or.inl rfl)
        rw [this] at hc
        exact absurd hc (by simp)

theorem verifyFrom_error_char (b : String × RasterParams)
    (ps : List (String × RasterParams)) (e : String)
    (h : verifyFrom b ps = .error e) :
    ∃ p ∈ ps, checkPair b p = .error e := by
  induction ps with
  | nil => exact absurd h (by simp [verifyFrom])
  | cons p ps ih =>
    simp only [verifyFrom] at h
    cases hc : checkPair b p with
    | ok u =>
      cases u
      rw [hc] at h
      rcases ih h with ⟨q, hq, hqe⟩
      exact ⟨q, List.mem_cons_of_mem p hq, hqe⟩
    | error e' =>
      rw [hc] at h
      injection h with h'
      exact ⟨p, List.mem_cons_self p ps, by rw [hc, h']⟩

theorem allclose_refl (a : List ℚ) :
    allclose a a npRtol npAtol = true := by
  simp only [allclose, Bool.and_eq_true, beq_iff_eq, List.all_eq_true]
  refine ⟨by trivial, ?_⟩
  intro p hp
  have hpq : p.1 = p.2 := by
    induction a with
    | nil => simp at hp
    | cons x xs ih =>
      rw [List.zip_cons_cons, List.mem_cons] at hp
      rcases hp with rfl | hp
      · rfl
      · exact ih hp
  rw [hpq]
  simp only [sub_self, abs_zero, decide_eq_true_eq, npRtol, npAtol]
  positivity

/-- C4 (amended): `verify_alignment` succeeds iff every raster matches the
first one in exact pixel size, exact projection, and geotransform
componentwise within numpy's `allclose` tolerance `1e-6 + 1e-5·|ref|`
(the call passes `atol=1e-6` but keeps the default `rtol=1e-5`, so the
tolerance is NOT the absolute `1e-6`); on failure the error names the
mismatching attribute — size, then transform, then projection — and the
offending pair `paths[0] vs paths[i+1]`; and a raster checked against
itself always passes. -/
theorem verify_alignment_spec (r : String × RasterParams)
    (rs : List (String × RasterParams)) :
    (verify_alignment (r :: rs) = .ok () ↔
      ∀ p ∈ rs, p.2.size = r.2.size ∧
        allclose p.2.gt r.2.gt npRtol npAtol = true ∧
        p.2.proj = r.2.proj) ∧
    (∀ e, verify_alignment (r :: rs) = .error e →
      ∃ p ∈ rs,
        (p.2.size ≠ r.2.size ∧
          e = "Size mismatch: " ++ r.1 ++ " vs " ++ p.1) ∨
        (allclose p.2.gt r.2.gt npRtol npAtol = false ∧
          e = "Geotransform mismatch: " ++ r.1 ++ " vs " ++ p.1) ∨
        (p.2.proj ≠ r.2.proj ∧
          e = "Projection mismatch: " ++ r.1 ++ " vs " ++ p.1)) ∧
    verify_alignment [r, r] = .ok () := by
  refine ⟨?_, ?_, ?_⟩
  · rw [show verify_alignment (r :: rs) = verifyFrom r rs from rfl,
      verifyFrom_ok_iff]
    constructor
    · intro h p hp
      exact (checkPair_ok_iff r p).1 (h p hp)
    · intro h p hp
      exact (checkPair_ok_iff r p).2 (h p hp)
  · intro e he
    rw [show verify_alignment (r :: rs) = verifyFrom r rs from rfl] at he
    rcases verifyFrom_error_char r rs e he with ⟨p, hp, hpe⟩
    exact ⟨p, hp, checkPair_error_char r p e hpe⟩
  · rw [show verify_alignment [r, r] = verifyFrom r [r] from rfl]
    simp only [verifyFrom]
    rw [show checkPair r r = .ok () from
      (checkPair_ok_iff r r).2 ⟨rfl, allclose_refl r.2.gt, rfl⟩]

/-- C4 counterexample: two rasters whose geotransforms differ by `5e-6`
in the origin X — more than the absolute tolerance `1e-6` — still pass
`verify_alignment`, because the `np.allclose` call keeps the default
relative tolerance `1e-5` (here `1e-6 + 1e-5·100 ≈ 1e-3`). The claimed
"equal within absolute tolerance 1e-6" is therefore not the success
condition. -/
theorem verify_alignment_abs_tol_counterexample :
    verify_alignment
      [("a.tif", ⟨(4, 4), [100, 1, 0, 0, 0, -1], "P"⟩),
       ("b.tif", ⟨(4, 4), [100 + 1/200000, 1, 0, 0, 0, -1], "P"⟩)] =
      .ok () ∧
    ¬ (|(100 + 1/200000 : ℚ) - 100| ≤ 1/1000000) := by
  constructor
  · show verifyFrom ("a.tif", ⟨(4, 4), [100, 1, 0, 0, 0, -1], "P"⟩)
      [("b.tif", ⟨(4, 4), [100 + 1/200000, 1, 0, 0, 0, -1], "P"⟩)] = .ok ()
    rw [verifyFrom_ok_iff]
    intro p hp
    rw [List.mem_singleton] at hp
    subst hp
    refine (checkPair_ok_iff _ _).2 ⟨rfl, ?_, rfl⟩
    simp only [allclose, npRtol, npAtol, List.zip_cons_cons, List.zip_nil_right,
      List.all_cons, List.all_nil, Bool.and_eq_true, beq_iff_eq,
      decide_eq_true_eq]
    norm_num
    rw [abs_of_pos (by norm_num : (0 : ℚ) < 1/200000)]
    norm_num
  · rw [show (100 + 1/200000 : ℚ) - 100 = 1/200000 by ring,
      abs_of_pos (by norm_num : (0 : ℚ) < 1/200000)]
    norm_num

/-- C4 witness: the reflexivity clause of the amended theorem at a
concrete raster. -/
theorem verify_alignment_spec_witness :
    verify_alignment
      [("a.tif", ⟨(4, 4), [0, 1, 0, 0, 0, -1], "P"⟩),
       ("a.tif", ⟨(4, 4), [0, 1, 0, 0, 0, -1], "P"⟩)] = .ok () :=
  (verify_alignment_spec ("a.tif", ⟨(4, 4), [0, 1, 0, 0, 0, -1], "P"⟩) []).2.2

/-! ## `process_dataset` result filtering (`maps_align.py`, lines 104–118)

    valid_tiles = [r[0] for r in results if r[1]]
    if not valid_tiles:
        raise RuntimeError("Ни один из тайлов не обработался корректно.")
    vrt = gdal.BuildVRT(vrt_path, valid_tiles)
-/

/-- One tile job result `(out_path, success)` as returned by
`_process_tile` (`maps_align.py:158,161`). -/
structure TileResult where
  path : String
  success : Bool
deriving DecidableEq

/-- The mosaic-assembly step of `process_dataset`: filter the results to
the successful tile paths; raise `RuntimeError` when none succeeded,
before any output is built; otherwise the VRT mosaic is built from
exactly the successful tile paths, in result order. -/
def assembleMosaic (results : List TileResult) : Except String (List String) :=
  let valid := (results.filter (fun r => r.success)).map (fun r => r.path)
  if valid.isEmpty then
    .error "RuntimeError: Ни один из тайлов не обработался корректно."
  else .ok valid

/-- C5: if every tile result's success flag is false, the whole operation
fails with the no-valid-tiles error and no mosaic value is produced; if at
least one tile succeeded, the mosaic inputs are exactly the successful
tiles' paths. -/
theorem assembleMosaic_cases (results : List TileResult) :
    ((∀ r ∈ results, r.success = false) →
      assembleMosaic results =
        .error "RuntimeError: Ни один из тайлов не обработался корректно.") ∧
    ((∃ r ∈ results, r.success = true) →
      assembleMosaic results =
        .ok ((results.filter (fun r => r.success)).map (fun r => r.path))) := by
  constructor
  · intro hall
    have hfil : results.filter (fun r => r.success) = [] := by
      rw [List.filter_eq_nil_iff]
      intro a ha
      rw [hall a ha]
      exact Bool.false_ne_true
    rw [assembleMosaic, hfil]
    rfl
  · rintro ⟨r, hr, hs⟩
    have hmem : r ∈ results.filter (fun r => r.success) :=
      List.mem_filter.2 ⟨hr, hs⟩
    have hne : (results.filter (fun r => r.success)).map (fun r => r.path) ≠ [] := by
      intro hnil
      rw [List.map_eq_nil_iff] at hnil
      rw [hnil] at hmem
      exact absurd hmem (List.not_mem_nil r)
    rw [assembleMosaic, if_neg (by rwa [List.isEmpty_iff])]

/-- C5 witness: one failed and one successful tile; the mosaic is built
from the successful path only. -/
theorem assembleMosaic_cases_witness :
    assembleMosaic [TileResult.mk "t0.tif" false, TileResult.mk "t1.tif" true] =
      .ok (([TileResult.mk "t0.tif" false, TileResult.mk "t1.tif" true].filter
        (fun r => r.success)).map (fun r => r.path)) :=
  (assembleMosaic_cases [TileResult.mk "t0.tif" false, TileResult.mk "t1.tif" true]).2
    ⟨TileResult.mk "t1.tif" true, by simp, rfl⟩

/-! ## `pool.map` result ordering (`maps_align.py`, lines 104–105)

    with Pool(cpu_count(), initializer=self._init_worker) as pool:
        results = pool.map(self._process_tile, tasks)

`multiprocessing.Pool.map` hands the submitted jobs to workers that finish
them in an arbitrary order, then returns one result per job re-assembled
in submission order. The pool is modelled by its completion log: the job
indices in the (arbitrary) order the workers complete them, each paired
with that job's result, re-collected by submission index. -/

/-- The completion log of a pool run: the workers finish the jobs in the
order `order` (a permutation of the job indices); each completion records
its job index and the job's result. -/
def completionLog {α β : Type} (f : α → β) (jobs : List α)
    (order : List Nat) : List (Nat × β) :=
  order.filterMap (fun i => (jobs[i]?).map (fun j => (i, f j)))

/-- `pool.map(f, jobs)`: the completed results collected back into
submission order, one slot per submitted job. -/
def poolMap {α β : Type} (f : α → β) (jobs : List α)
    (order : List Nat) : List β :=
  (List.range jobs.length).filterMap (fun i =>
    ((completionLog f jobs order).find? (fun p => p.1 == i)).map (fun p => p.2))

theorem filterMap_congr_mem {α β : Type} (l : List α) (f g : α → Option β)
    (h : ∀ a ∈ l, f a = g a) : l.filterMap f = l.filterMap g := by
  induction l with
  | nil => rfl
  | cons a l ih =>
    rw [List.filterMap_cons, List.filterMap_cons,
      h a (List.mem_cons_self a l), ih (fun b hb => h b (List.mem_cons_of_mem a hb))]

theorem filterMap_getElem?_range {β : Type} (m : List β) :
    (List.range m.length).filterMap (fun i => m[i]?) = m := by
  induction m with
  | nil => rfl
  | cons a l ih =>
    rw [List.length_cons, List.range_succ_eq_map, List.filterMap_cons,
      List.filterMap_map]
    rw [List.getElem?_cons_zero]
    have h2 : (List.range l.length).filterMap
        ((fun i => (a :: l)[i]?) ∘ Nat.succ) =
        (List.range l.length).filterMap (fun i => l[i]?) := by
      apply filterMap_congr_mem
      intro i _
      simp only [Function.comp_apply, List.getElem?_cons_succ]
    rw [h2, ih]

theorem completionLog_values {α β : Type} (f : α → β) (jobs : List α)
    (order : List Nat) (p : Nat × β) (hp : p ∈ completionLog f jobs order) :
    (jobs[p.1]?).map f = some p.2 := by
  rw [completionLog, List.mem_filterMap] at hp
  rcases hp with ⟨a, _, ha⟩
  cases hj : jobs[a]? with
  | none => rw [hj] at ha; exact absurd ha (by simp)
  | some j =>
    rw [hj] at ha
    simp only [Option.map_some', Option.some.injEq] at ha
    rw [← ha, hj]
    rfl

/-- C8: for every job sequence and every completion order of the workers
(any permutation of the job indices), the scheduler's returned sequence
equals `jobs.map f` — one result per job, the `i`-th result being the
`i`-th submitted job's result — so its length is the job count and the
order is the submission order, independent of completion order. -/
theorem poolMap_ordered {α β : Type} (f : α → β) (jobs : List α)
    (order : List Nat) (hperm : order.Perm (List.range jobs.length)) :
    poolMap f jobs order = jobs.map f ∧
    (poolMap f jobs order).length = jobs.length := by
  have hmain : poolMap f jobs order = jobs.map f := by
    rw [poolMap]
    have hstep : ∀ i ∈ List.range jobs.length,
        (((completionLog f jobs order).find? (fun p => p.1 == i)).map
          (fun p => p.2)) = (jobs.map f)[i]? := by
      intro i hi
      rw [List.mem_range] at hi
      have hmem : i ∈ order := hperm.mem_iff.2 (List.mem_range.2 hi)
      have hlog : (i, f (jobs[i])) ∈ completionLog f jobs order := by
        rw [completionLog, List.mem_filterMap]
        refine ⟨i, hmem, ?_⟩
        rw [List.getElem?_eq_getElem hi]
        rfl
      have hsome : ((completionLog f jobs order).find?
          (fun p => p.1 == i)).isSome := by
        rw [List.find?_isSome]
        exact ⟨(i, f (jobs[i])), hlog, by simp⟩
      rcases Option.isSome_iff_exists.1 hsome with ⟨q, hq⟩
      have hqi : q.1 = i := by
        have := List.find?_some hq
        simpa using this
      have hqv : (jobs[q.1]?).map f = some q.2 :=
        completionLog_values f jobs order q (List.mem_of_find?_eq_some hq)
      rw [hq]
      rw [hqi, List.getElem?_eq_getElem hi] at hqv
      simp only [Option.map_some', Option.some.injEq] at hqv
      rw [List.getElem?_map, List.getElem?_eq_getElem hi]
      simp [← hqv]
    rw [filterMap_congr_mem _ _ _ hstep]
    have hlen : jobs.length = (jobs.map f).length := (List.length_map _ _).symm
    rw [hlen, filterMap_getElem?_range]
  exact ⟨hmain, by rw [hmain, List.length_map]⟩

/-- C8 witness: two jobs completed in reversed order still yield the
results in submission order. -/
theorem poolMap_ordered_witness :
    poolMap (fun n : Nat => n + 1) [10, 20] [1, 0] =
      [10, 20].map (fun n : Nat => n + 1) ∧
    (poolMap (fun n : Nat => n + 1) [10, 20] [1, 0]).length =
      ([10, 20] : List Nat).length :=
  poolMap_ordered (fun n : Nat => n + 1) [10, 20] [1, 0] (by decide)

end MoonPol
